import Mathlib

/-!
Shallow embedding of the acquisition size-resolution and OME-Zarr schema pipeline
of pymmcore-plus: the size resolvers (`position_sizes` in d.py, `jagged_sizes` in
zz.py), the dimension-schema builder, storage-location resolution, the
streaming-writer state, and the persisted group descriptor
(src/pymmcore_plus/mda/handlers/_tensorstore_ome_zarr.py and
src/ez_tensorstore.py).

Axis-size mappings (Python dicts) are embedded as ordered association lists from
axis label to count; Python dict keys are unique, which appears below as Nodup
hypotheses on key lists where a proof needs that fact.  Python truthiness of a
size (`None` or `0` is falsy) is embedded by letting lookups default to `0`.
Physical scales (Python floats such as a z step or the 1e-6 placeholder time
interval) are embedded as rationals.
-/

/-- Ordered axis-label-to-size mapping (a Python dict in the source). -/
abbrev AxisSizes := List (String × Nat)

/-- Lookup of a key with default 0.  This models both `d.get(k, 0)` and the
falsy treatment of `d.get(k)` returning `None`: a kept value is always
non-zero, so collapsing absent/None into 0 is observation-equivalent. -/
def dget (m : AxisSizes) (k : String) : Nat :=
  match m.find? (fun kv => kv.1 == k) with
  | some kv => kv.2
  | none => 0

/-- A nested per-position sub-sequence: the embedded code reads only its axis
sizes (`p.sequence.sizes`). -/
structure SubSeq where
  sizes : AxisSizes
deriving DecidableEq

/-- A stage position, optionally carrying its own nested sub-sequence. -/
structure Position where
  sequence : Option SubSeq
deriving DecidableEq

/-- A time plan; `interval` holds the value of `time_plan.interval.seconds`
(the integral seconds value the external library exposes), or `none` when the
plan has no `interval` attribute. -/
structure TimePlan where
  interval : Option Nat
deriving DecidableEq

/-- A z plan; `step` holds `z_plan.step` in micrometers, or `none` when the
plan has no `step` attribute. -/
structure ZPlan where
  step : Option ℚ
deriving DecidableEq

/-- The pieces of a `useq.MDASequence` that the embedded code reads.
`used_axes` is the external library's tuple of (non-spatial) axes used by the
plan. -/
structure MDASequence where
  sizes : AxisSizes
  stage_positions : List Position
  used_axes : List String
  time_plan : Option TimePlan
  z_plan : Option ZPlan
deriving DecidableEq

/-- The loop body of d.py `position_sizes`: the size dict computed for one
stage position (inherit `main_sizes` when the position has no sub-sequence,
otherwise take the sub-sequence's axes with fallback into `main_sizes`), with
falsy sizes and the position axis filtered out. -/
def positionSizesFor (main_sizes : AxisSizes) (p : Position) : AxisSizes :=
  let psizes :=
    match p.sequence with
    | some sub =>
        sub.sizes.map (fun (kv : String × Nat) =>
          (kv.1, if kv.2 != 0 then kv.2 else dget main_sizes kv.1))
    | none => main_sizes
  psizes.filter (fun kv => kv.2 != 0 && kv.1 != "p")

/-- d.py `position_sizes`: one size dict per position; dimensions with no size
are omitted, singletons are kept.  `dict.pop("p")` is embedded as removing the
(unique) `"p"` entry. -/
def position_sizes (seq : MDASequence) : List AxisSizes :=
  let main_sizes := seq.sizes.eraseP (fun kv => kv.1 == "p")
  if seq.stage_positions.isEmpty then
    [main_sizes.filter (fun kv => kv.2 != 0)]
  else
    seq.stage_positions.map (positionSizesFor main_sizes)

/-- The `{k: v for k, v in m.items() if v}` filter of zz.py. -/
def filterSizes (m : AxisSizes) : AxisSizes :=
  m.filter (fun kv => kv.2 != 0)

/-- Value of one entry in the heterogeneous dict returned by zz.py
`jagged_sizes`: either a plain size or the per-position list of size dicts. -/
inductive SizeVal where
  | n (v : Nat)
  | sub (maps : List AxisSizes)
deriving DecidableEq

/-- One step of the dict comprehension in zz.py `jagged_sizes`:
`k: val ... if k != Axis.POSITION and (val := v or sizes.get(k))`. -/
def jaggedEntry (sizes : AxisSizes) (kv : String × Nat) :
    Option (String × Nat) :=
  if kv.1 != "p" then
    let val := if kv.2 != 0 then kv.2 else dget sizes kv.1
    if val != 0 then some (kv.1, val) else none
  else none

/-- The loop body of zz.py `jagged_sizes`: the per-position size dict built
over `items`, which is the position's own `sequence.sizes` when present, else
the (already falsy-filtered) parent `sizes`. -/
def jaggedPositionSizes (sizes : AxisSizes) (p : Position) : AxisSizes :=
  let items :=
    match p.sequence with
    | none => sizes
    | some sub => sub.sizes
  items.filterMap (jaggedEntry sizes)

/-- zz.py `jagged_sizes`.  Note that the source accepts `compressed` but its
body never reads it. -/
def jagged_sizes (seq : MDASequence) (compressed : Bool) :
    List (String × SizeVal) :=
  let sizes := filterSizes seq.sizes
  if seq.stage_positions.any (fun p => p.sequence.isSome) then
    [("p", SizeVal.sub (seq.stage_positions.map (jaggedPositionSizes sizes)))]
  else
    sizes.map (fun kv => (kv.1, SizeVal.n kv.2))

/-- One axis of the specification-side per-position map: the effective value
is the position's own value when non-zero, else the root value; the axis is
used only when it is not the position axis and its effective value is
non-zero. -/
def specEntry (rootSizes : AxisSizes) (kv : String × Nat) :
    Option (String × Nat) :=
  let eff := if kv.2 != 0 then kv.2 else dget rootSizes kv.1
  if kv.1 != "p" && eff != 0 then some (kv.1, eff) else none

/-- The per-position effective axis-size map exactly as the specification words
it: for every axis in the position's own sub-description if present (otherwise
in the root), use the position's own value when it is non-zero and fall back to
the root value otherwise; the position axis itself never appears, and an axis
whose effective value is zero or absent is not used. -/
def specPositionSizes (rootSizes : AxisSizes) (p : Position) : AxisSizes :=
  let axes :=
    match p.sequence with
    | none => rootSizes
    | some sub => sub.sizes
  axes.filterMap (specEntry rootSizes)

/-- `_get_unit` of _tensorstore_ome_zarr.py: the (scale, name) physical unit
derived for dimension `k` from the acquisition plan.  The Python falls through
both `if` statements and returns `None` when the guards fail. -/
def _get_unit (k : String) (seq : MDASequence) : Option (ℚ × String) :=
  if k == "z" then
    match seq.z_plan with
    | some zp =>
        match zp.step with
        | some st => some (st, "um")
        | none => none
    | none => none
  else if k == "t" then
    match seq.time_plan with
    | some tp =>
        match tp.interval with
        | some secs =>
            if secs != 0 then some ((secs : ℚ), "s")
            else some ((1 : ℚ) / 1000000, "s")
        | none => none
    | none => none
  else none

/-- The `OME_DIM_TYPE` lookup table of the source. -/
def OME_DIM_TYPE : List (String × String) :=
  [("y", "space"), ("x", "space"), ("z", "space"), ("t", "time"), ("c", "channel")]

/-- The `OME_UNIT` lookup table of the source (its `None` key is unreachable
from `ome_unit`, which only consults the table with a string). -/
def OME_UNIT : List (String × String) :=
  [("um", "micrometer"), ("ml", "milliliter"), ("s", "second")]

/-- String-dict lookup with a default, modelling `d.get(k, default)`. -/
def sdget (m : List (String × String)) (k : String) (d : String) : String :=
  match m.find? (fun kv => kv.1 == k) with
  | some kv => kv.2
  | none => d

/-- The `_Dim` NamedTuple of _tensorstore_ome_zarr.py. -/
structure _Dim where
  label : String
  size : Nat
  unit : Option (ℚ × String) := none
  chunk_size : Option Int := some 1
deriving DecidableEq

/-- `_Dim.ome_dim_type`: classification derived from the label. -/
def _Dim.ome_dim_type (d : _Dim) : String :=
  sdget OME_DIM_TYPE d.label "other"

/-- `_Dim.ome_unit`: OME unit name derived from the unit pair. -/
def _Dim.ome_unit (d : _Dim) : String :=
  match d.unit with
  | some u => sdget OME_UNIT u.2 "unknown"
  | none => "unknown"

/-- `_Dim.ome_scale`: scale factor derived from the unit pair. -/
def _Dim.ome_scale (d : _Dim) : ℚ :=
  match d.unit with
  | some u => u.1
  | none => 1

/-- The ranking of `ome_dim_type` values named by the ordering invariant:
time 0, channel 1, other 2, space 3. -/
def dimTypeRank (t : String) : Nat :=
  if t == "time" then 0
  else if t == "channel" then 1
  else if t == "space" then 3
  else 2

/-- The rank of the `ome_dim_type` an axis label classifies to. -/
def labelRank (s : String) : Nat :=
  dimTypeRank (sdget OME_DIM_TYPE s "other")

/-- Chunk-size dict lookup, modelling `self.chunks.get(str(key), default)`. -/
def chunksGet (chunks : List (String × Int)) (k : String) (d : Int) : Int :=
  match chunks.find? (fun kv => kv.1 == k) with
  | some kv => kv.2
  | none => d

/-- One entry of `SummaryMetaV1["image_infos"]`: the fields `_build_dims`
reads. -/
structure ImageInfo where
  pixel_size_um : Option ℚ
  plane_shape : Nat × Nat
deriving DecidableEq

/-- The summary metadata handed to `prepare_sequence`/`_build_dims`. -/
structure SummaryMeta where
  image_infos : List ImageInfo
deriving DecidableEq

/-- One iteration of the `_build_dims` loop:
`if nt := seq.sizes.get(key): dims.append(_Dim(...))`. -/
def _build_entry (chunks : List (String × Int)) (seq : MDASequence)
    (kv : String × Nat) : Option _Dim :=
  let nt := dget seq.sizes kv.1
  if nt != 0 then
    some { label := kv.1, size := nt, unit := _get_unit kv.1 seq,
           chunk_size := some (chunksGet chunks kv.1 1) }
  else none

/-- The non-spatial part of `_build_dims`: `for key in seq.sizes: if nt :=
seq.sizes.get(key): dims.append(_Dim(...))`. -/
def _build_main_dims (chunks : List (String × Int)) (seq : MDASequence) :
    List _Dim :=
  seq.sizes.filterMap (_build_entry chunks seq)

/-- `_build_dims` of _tensorstore_ome_zarr.py: the non-spatial dims in
`seq.sizes` order, then always y and x from `meta["image_infos"][0]`.  The
Python indexes `image_infos[0]`, which fails on an empty list; that failure is
embedded as `none`. -/
def _build_dims (chunks : List (String × Int)) (seq : MDASequence)
    (meta : SummaryMeta) : Option (List _Dim) :=
  match meta.image_infos with
  | [] => none
  | img_info :: _ =>
    let dims := _build_main_dims chunks seq
    let px_unit : ℚ × String := (img_info.pixel_size_um.getD 1, "um")
    let y : _Dim :=
      ⟨"y", img_info.plane_shape.1, some px_unit, some (chunksGet chunks "y" (-1))⟩
    let x : _Dim :=
      ⟨"x", img_info.plane_shape.2, some px_unit, some (chunksGet chunks "x" (-1))⟩
    some (dims ++ [y, x])

/-- A storage mutation observable by the claims about failing fast. -/
inductive StorageEffect where
  | writeGroupMetadata
  | createArray
deriving DecidableEq

/-- The axes supported by the handler: `(useq.Axis.TIME, useq.Axis.CHANNEL,
useq.Axis.Z)`. -/
def supportedAxes : List String := ["t", "c", "z"]

/-- Effects of `self._create_store(seq, meta)`.  Modelled from the spec: the
body of `_create_store` is absent from the source (its call site ends the
truncated `prepare_sequence` draft); per section 4.4 creating the store writes
the group-level metadata and then opens/creates the backing array. -/
def _create_store_effects : List StorageEffect :=
  [StorageEffect.writeGroupMetadata, StorageEffect.createArray]

/-- `prepare_sequence` of the handler: the inherited call records the sequence
(modelled from the spec: `OMEWriterBase.prepare_sequence` is absent from the
source and per section 4.4 performs no storage mutation), then the two axis
validations raise, and only past them is the store created.  The result pairs
the raise/return outcome with the storage mutations performed. -/
def prepare_sequence (seq : MDASequence) (meta : SummaryMeta) :
    Except String Unit × List StorageEffect :=
  if 3 < seq.used_axes.length then
    (Except.error "Only 5D data (or less) is currently supported by OME-NGFF.", [])
  else if seq.used_axes.any (fun x => !(supportedAxes.contains x)) then
    (Except.error "Only time, channel, and z are currently supported by OME-NGFF.",
     [])
  else
    (Except.ok (), _create_store_effects)

/-- The mutable writer state that `reset` touches: the open store handle, the
pending write futures, and the deferred frame metadata.  Handles and metadata
records are opaque to `reset` and embedded as numbers. -/
structure WriterState where
  store : Option Nat
  futures : List Nat
  frame_metadatas : List (Nat × Nat)
deriving DecidableEq

/-- `reset` of the handler, verbatim: clear the store handle, the pending
futures and the deferred metadata, never raising.  The `Except` result makes
the (unused) error channel of the claim expressible. -/
def reset (st : WriterState) (sequence : MDASequence) :
    Except String WriterState :=
  Except.ok { st with store := none, futures := [], frame_metadatas := [] }

/-- Python `s.startswith(pat)`, computed on the underlying character lists so
that concrete instances evaluate inside the kernel. -/
def strStartsWith (s pat : String) : Bool :=
  pat.data.isPrefixOf s.data

/-- Python `s.lower()`, computed on the underlying character list. -/
def strToLower (s : String) : String :=
  String.mk (s.data.map Char.toLower)

/-- Python `pat in s` (substring containment) on character lists. -/
def charsContain (pat : List Char) : List Char → Bool
  | [] => pat.isEmpty
  | c :: rest => pat.isPrefixOf (c :: rest) || charsContain pat rest

/-- Models the external `Path(s).expanduser().absolute().resolve()`: an
absolute form of the path, embedded as prefixing the working directory when the
path is not already absolute (tilde expansion and symlink resolution are
external-collaborator behavior the claims never observe). -/
def resolvePath (cwd : String) (s : String) : String :=
  if strStartsWith s "/" then s else cwd ++ "/" ++ s

/-- The `group_path` setter of the handler: returns the `(kvstore,
group_path)` pair it assigns.  `None` or a `memory:`-prefixed string selects
the in-memory store; anything else is resolved to an absolute path whose
`"0"` sub-path (the `_array_path`) addresses the array. -/
def set_group_path (cwd : String) (path : Option String) :
    String × Option String :=
  match path with
  | none => ("memory://", none)
  | some s =>
    if strStartsWith (strToLower s) "memory:" then ("memory://", none)
    else
      let p := resolvePath cwd s
      ("file://" ++ p ++ "/" ++ "0", some p)

/-- The kvstore value produced by `_path_kvstore` of ez_tensorstore.py: either
a URL string returned verbatim or a file-driver spec. -/
inductive KvLocation where
  | url (s : String)
  | fileDriver (path : String)
deriving DecidableEq

/-- Whether a string contains the scheme separator, modelling
`"://" in str(path)`. -/
def containsSchemeSep (s : String) : Bool :=
  charsContain "://".data s.data

/-- `_path_kvstore` of ez_tensorstore.py. -/
def _path_kvstore (cwd : String) (path : String) : KvLocation :=
  if containsSchemeSep path then KvLocation.url path
  else KvLocation.fileDriver (resolvePath cwd path)

/-- JSON values, for the persisted group descriptor. -/
inductive Json where
  | num (q : ℚ)
  | str (s : String)
  | arr (xs : List Json)
  | obj (kvs : List (String × Json))

/-- Object-key lookup on a JSON value. -/
def jget : Json → String → Option Json
  | Json.obj kvs, k => (kvs.find? (fun kv => kv.1 == k)).map Prod.snd
  | _, _ => none

/-- One entry of the `axes` list built by `_ome_axes_scales`. -/
def _ome_axis_json (d : _Dim) : Json :=
  Json.obj [("name", Json.str d.label), ("type", Json.str d.ome_dim_type),
            ("unit", Json.str d.ome_unit)]

/-- `_ome_axes_scales` of _tensorstore_ome_zarr.py: the ordered axes entries
and the per-axis scale factors, one of each per dimension. -/
def _ome_axes_scales (dims : List _Dim) : List Json × List ℚ :=
  (dims.map _ome_axis_json, dims.map _Dim.ome_scale)

/-- `_group_meta` of _tensorstore_ome_zarr.py: the persisted group descriptor
built from the finalized dimension list and the array sub-path. -/
def _group_meta (array_path : String) (dims : List _Dim) : Json :=
  let axes := (_ome_axes_scales dims).1
  let scales := (_ome_axes_scales dims).2
  let scale0 := Json.obj
    [("axes", Json.arr axes),
     ("datasets", Json.arr
       [Json.obj
         [("path", Json.str array_path),
          ("coordinateTransformations", Json.arr
            [Json.obj [("scale", Json.arr (scales.map Json.num)),
                       ("type", Json.str "scale")]])]])]
  let attrs := Json.obj
    [("ome", Json.obj [("version", Json.str "0.5"),
                       ("multiscales", Json.arr [scale0])])]
  Json.obj [("zarr_format", Json.num 3), ("node_type", Json.str "group"),
            ("attributes", attrs)]

/-- The keys of the axes with non-zero size, in declaration order. -/
def nonzeroKeys (seq : MDASequence) : List String :=
  (seq.sizes.filter (fun kv => kv.2 != 0)).map Prod.fst

-- The docstring example of zz.py `jagged_sizes`: channels DAPI/FITC, two
-- positions where the second carries a sub-sequence with one channel and a
-- 2x1 grid, time 3 loops, z 4 slices (default axis order t, p, g, c, z).
def exDoc : MDASequence where
  sizes := [("t", 3), ("p", 2), ("g", 0), ("c", 2), ("z", 4)]
  stage_positions :=
    [⟨none⟩, ⟨some ⟨[("t", 0), ("p", 0), ("g", 2), ("c", 1), ("z", 0)]⟩⟩]
  used_axes := ["t", "p", "c", "z"]
  time_plan := some ⟨some 0⟩
  z_plan := some ⟨some (7/10)⟩

/-- A sequence with no axes and no positions, used to fill unread fields. -/
def emptySeq : MDASequence where
  sizes := []
  stage_positions := []
  used_axes := []
  time_plan := none
  z_plan := none

/-- Jagged sequence: two time points, two positions, the second carrying a
sub-sequence with a 2-point grid and 5 z slices. -/
def seqW1 : MDASequence :=
  { emptySeq with
      sizes := [("t", 2), ("p", 2), ("z", 0)]
      stage_positions := [⟨none⟩, ⟨some ⟨[("g", 2), ("z", 5)]⟩⟩]
      used_axes := ["t", "p"] }

/-- A sequence whose axis order declares z before t (a custom useq
`axis_order`): both axes are supported, so validation accepts it. -/
def seqC2 : MDASequence :=
  { emptySeq with
      sizes := [("z", 2), ("t", 3)]
      used_axes := ["z", "t"] }

/-- Summary metadata with a single camera: unit pixels, a 4 x 5 frame. -/
def metaW : SummaryMeta where
  image_infos := [{ pixel_size_um := some 1, plane_shape := (4, 5) }]

/-- A canonically ordered two-axis sequence (t then c). -/
def seqW2 : MDASequence :=
  { emptySeq with
      sizes := [("t", 2), ("c", 3)]
      used_axes := ["t", "c"] }

/-- A sequence using the grid axis, which the handler does not support. -/
def seqW3 : MDASequence :=
  { emptySeq with
      sizes := [("t", 2), ("g", 4)]
      used_axes := ["t", "g"] }

/-- A sequence with a single plain stage position, whose position axis
consequently has size 1. -/
def seqC4 : MDASequence :=
  { emptySeq with
      sizes := [("p", 1), ("t", 2)]
      stage_positions := [⟨none⟩]
      used_axes := ["p", "t"] }

/-- A flat sequence with a singleton time axis and an unused z axis. -/
def seqW4 : MDASequence :=
  { emptySeq with
      sizes := [("t", 1), ("z", 0)]
      used_axes := ["t"] }

/-- A time-resolved sequence whose interval reads as zero seconds. -/
def seqW9 : MDASequence :=
  { emptySeq with
      sizes := [("t", 5)]
      used_axes := ["t"]
      time_plan := some ⟨some 0⟩ }

/-- A flat sequence with two time points. -/
def seqW10 : MDASequence :=
  { emptySeq with
      sizes := [("t", 2)]
      used_axes := ["t"] }

/-! ## Association-list lemmas -/

theorem findKey_none {m : AxisSizes} {k : String} (h : k ∉ m.map Prod.fst) :
    m.find? (fun kv => kv.1 == k) = none := by
  refine List.find?_eq_none.mpr (fun kv hkv hbeq => ?_)
  exact h (beq_iff_eq.mp hbeq ▸ List.mem_map_of_mem Prod.fst hkv)

theorem dget_eq_zero_of_not_mem {m : AxisSizes} {k : String}
    (h : k ∉ m.map Prod.fst) : dget m k = 0 := by
  simp [dget, findKey_none h]

theorem dget_cons_pos {a : String × Nat} {t : AxisSizes} {k : String}
    (h : a.1 = k) : dget (a :: t) k = a.2 := by
  simp [dget, List.find?_cons, h]

theorem dget_cons_neg {a : String × Nat} {t : AxisSizes} {k : String}
    (h : a.1 ≠ k) : dget (a :: t) k = dget t k := by
  simp [dget, List.find?_cons, h]

theorem dget_of_mem {m : AxisSizes} (hN : (m.map Prod.fst).Nodup)
    {k : String} {v : Nat} (h : (k, v) ∈ m) : dget m k = v := by
  induction m with
  | nil => cases h
  | cons a t ih =>
    rw [List.map_cons, List.nodup_cons] at hN
    rcases List.mem_cons.mp h with heq | hmem
    · rw [← heq]
      exact dget_cons_pos rfl
    · have hk : a.1 ≠ k := by
        intro he
        exact hN.1 (by rw [he]; exact List.mem_map_of_mem Prod.fst hmem)
      rw [dget_cons_neg hk]
      exact ih hN.2 hmem

theorem dget_filterSizes {m : AxisSizes} (hN : (m.map Prod.fst).Nodup)
    (k : String) : dget (filterSizes m) k = dget m k := by
  induction m with
  | nil => rfl
  | cons a t ih =>
    rw [List.map_cons, List.nodup_cons] at hN
    by_cases hz : a.2 = 0
    · have hfs : filterSizes (a :: t) = filterSizes t := by
        simp [filterSizes, List.filter_cons, hz]
      rw [hfs, ih hN.2]
      by_cases hb : a.1 = k
      · rw [dget_cons_pos hb, hz, dget_eq_zero_of_not_mem (hb ▸ hN.1)]
      · rw [dget_cons_neg hb]
    · have hfs : filterSizes (a :: t) = a :: filterSizes t := by
        simp [filterSizes, List.filter_cons, hz]
      rw [hfs]
      by_cases hb : a.1 = k
      · rw [dget_cons_pos hb, dget_cons_pos hb]
      · rw [dget_cons_neg hb, dget_cons_neg hb]
        exact ih hN.2

/-! ## Per-position map lemmas -/

theorem jaggedEntry_eq_specEntry {root : AxisSizes}
    (hN : (root.map Prod.fst).Nodup) (kv : String × Nat) :
    jaggedEntry (filterSizes root) kv = specEntry root kv := by
  unfold jaggedEntry specEntry
  rw [dget_filterSizes hN]
  by_cases hp : kv.1 = "p"
  · simp [hp]
  · by_cases he : (if kv.2 != 0 then kv.2 else dget root kv.1) = 0 <;>
      simp [hp, he]

theorem filterMap_spec_filterSizes {root : AxisSizes} :
    ∀ l : AxisSizes, (∀ kv ∈ l, kv.2 = 0 → dget root kv.1 = 0) →
      (filterSizes l).filterMap (specEntry root) =
        l.filterMap (specEntry root) := by
  intro l
  induction l with
  | nil => intro _; rfl
  | cons a t ih =>
    intro h
    by_cases ha : a.2 = 0
    · have h1 : filterSizes (a :: t) = filterSizes t := by
        simp [filterSizes, List.filter_cons, ha]
      have h2 : specEntry root a = none := by
        simp [specEntry, ha, h a (List.mem_cons_self a t) ha]
      rw [h1, List.filterMap_cons, h2]
      exact ih (fun kv hkv => h kv (List.mem_cons_of_mem a hkv))
    · have h1 : filterSizes (a :: t) = a :: filterSizes t := by
        simp [filterSizes, List.filter_cons, ha]
      rw [h1, List.filterMap_cons, List.filterMap_cons,
        ih (fun kv hkv => h kv (List.mem_cons_of_mem a hkv))]

theorem jaggedPositionSizes_eq_spec {root : AxisSizes}
    (hN : (root.map Prod.fst).Nodup) (p : Position) :
    jaggedPositionSizes (filterSizes root) p = specPositionSizes root p := by
  have hfun : jaggedEntry (filterSizes root) = specEntry root :=
    funext (jaggedEntry_eq_specEntry hN)
  cases hps : p.sequence with
  | some sub =>
      unfold jaggedPositionSizes specPositionSizes
      rw [hps, hfun]
  | none =>
      unfold jaggedPositionSizes specPositionSizes
      rw [hps, hfun]
      exact filterMap_spec_filterSizes root
        (fun kv hkv hz => hz ▸ dget_of_mem hN hkv)

theorem mem_specPositionSizes_ne_p {root : AxisSizes} {p : Position}
    {kv : String × Nat} (h : kv ∈ specPositionSizes root p) : kv.1 ≠ "p" := by
  unfold specPositionSizes at h
  rcases List.mem_filterMap.mp h with ⟨a, _, hsome⟩
  simp only [specEntry] at hsome
  by_cases hc : (a.1 != "p" &&
      (if a.2 != 0 then a.2 else dget root a.1) != 0) = true
  · rw [if_pos hc] at hsome
    have hp : (a.1 != "p") = true := by
      simp only [Bool.and_eq_true] at hc
      exact hc.1
    cases hsome
    exact bne_iff_ne.mp hp
  · rw [if_neg hc] at hsome
    cases hsome

/-! ## position_sizes lemmas -/

theorem mem_eraseP_key_ne {m : AxisSizes} (hN : (m.map Prod.fst).Nodup)
    {kv : String × Nat}
    (h : kv ∈ m.eraseP (fun kv => kv.1 == "p")) : kv.1 ≠ "p" := by
  induction m with
  | nil => cases h
  | cons a t ih =>
    rw [List.map_cons, List.nodup_cons] at hN
    by_cases hb : a.1 = "p"
    · rw [List.eraseP_cons_of_pos (l := t) (by simpa using hb)] at h
      intro hkvp
      exact hN.1 (by rw [hb, ← hkvp]; exact List.mem_map_of_mem Prod.fst h)
    · rw [List.eraseP_cons_of_neg (l := t) (by simpa using hb)] at h
      rcases List.mem_cons.mp h with rfl | hmem
      · exact hb
      · exact ih hN.2 hmem

theorem mem_eraseP_of_key_ne {m : AxisSizes} {kv : String × Nat}
    (hk : kv.1 ≠ "p") (h : kv ∈ m) :
    kv ∈ m.eraseP (fun kv => kv.1 == "p") :=
  (List.mem_eraseP_of_neg (by simpa using hk)).mpr h

theorem position_sizes_length (seq : MDASequence) :
    (position_sizes seq).length =
      if seq.stage_positions.isEmpty then 1 else seq.stage_positions.length := by
  unfold position_sizes
  by_cases h : seq.stage_positions.isEmpty <;> simp [h]

theorem position_sizes_entries (seq : MDASequence)
    (hN : (seq.sizes.map Prod.fst).Nodup) :
    ∀ m ∈ position_sizes seq, ∀ kv ∈ m, kv.1 ≠ "p" ∧ 0 < kv.2 := by
  intro m hm kv hkv
  unfold position_sizes at hm
  by_cases hpos : seq.stage_positions.isEmpty
  · rw [if_pos hpos] at hm
    rcases List.mem_singleton.mp hm with rfl
    have h2 := List.mem_filter.mp hkv
    refine ⟨mem_eraseP_key_ne hN h2.1, ?_⟩
    have hz : kv.2 ≠ 0 := bne_iff_ne.mp h2.2
    omega
  · rw [if_neg hpos] at hm
    rcases List.mem_map.mp hm with ⟨p, _, rfl⟩
    have h2 := (List.mem_filter.mp hkv).2
    simp only [Bool.and_eq_true, bne_iff_ne] at h2
    exact ⟨h2.2, Nat.pos_of_ne_zero h2.1⟩

theorem positionSizesFor_values {main : AxisSizes} {p : Position}
    {kv : String × Nat} (h : kv ∈ positionSizesFor main p) : kv.2 ≠ 0 := by
  have h2 := (List.mem_filter.mp h).2
  simp only [Bool.and_eq_true, bne_iff_ne] at h2
  exact h2.1

theorem positionSizesFor_plain {main : AxisSizes} {p : Position}
    (hseq : p.sequence = none) {k : String} {v : Nat}
    (hv : v ≠ 0) (hk : k ≠ "p") (hmem : (k, v) ∈ main) :
    (k, v) ∈ positionSizesFor main p := by
  unfold positionSizesFor
  rw [hseq]
  exact List.mem_filter.mpr ⟨hmem, by simp [hv, hk]⟩

theorem positionSizesFor_sub {main : AxisSizes} {p : Position} {sub : SubSeq}
    (hseq : p.sequence = some sub) {k : String}
    (hk : k ≠ "p") (hmem : (k, 1) ∈ sub.sizes) :
    (k, 1) ∈ positionSizesFor main p := by
  unfold positionSizesFor
  rw [hseq]
  refine List.mem_filter.mpr ⟨?_, by simp [hk]⟩
  have := List.mem_map_of_mem
    (fun (kv : String × Nat) =>
      (kv.1, if kv.2 != 0 then kv.2 else dget main kv.1)) hmem
  simpa using this

/-! ## Claims about size resolution -/

/-- C1: for every acquisition description in which at least one stage position
carries its own sub-description, jagged size resolution computes each
position's effective axis-size map as specified: for every axis in the
position's own sub-description if present (otherwise in the root), the
position's own value is used when non-zero with fallback to the root value
otherwise, and the position axis never appears in any per-position map.
The Nodup hypothesis reflects that `seq.sizes` is a Python dict. -/
theorem c1_jagged_per_position_maps (seq : MDASequence)
    (hN : (seq.sizes.map Prod.fst).Nodup)
    (hsub : seq.stage_positions.any (fun p => p.sequence.isSome) = true)
    (compressed : Bool) :
    jagged_sizes seq compressed =
      [("p", SizeVal.sub
        (seq.stage_positions.map (specPositionSizes seq.sizes)))] ∧
    ∀ m ∈ seq.stage_positions.map (specPositionSizes seq.sizes),
      ∀ kv ∈ m, kv.1 ≠ "p" := by
  constructor
  · have hmap : seq.stage_positions.map (jaggedPositionSizes (filterSizes seq.sizes))
        = seq.stage_positions.map (specPositionSizes seq.sizes) :=
      List.map_congr_left (fun p _ => jaggedPositionSizes_eq_spec hN p)
    simp only [jagged_sizes, hsub, if_true]
    rw [hmap]
  · intro m hm kv hkv
    rcases List.mem_map.mp hm with ⟨p, _, rfl⟩
    exact mem_specPositionSizes_ne_p hkv

/-- Witness for C1 at a concrete jagged sequence. -/
theorem c1_jagged_per_position_maps_witness :
    jagged_sizes seqW1 false =
      [("p", SizeVal.sub
        (seqW1.stage_positions.map (specPositionSizes seqW1.sizes)))] ∧
    ∀ m ∈ seqW1.stage_positions.map (specPositionSizes seqW1.sizes),
      ∀ kv ∈ m, kv.1 ≠ "p" :=
  c1_jagged_per_position_maps seqW1 (by decide) (by decide) false

/-- C10: `position_sizes` always returns a non-empty list, with exactly one
map per stage position when there are stage positions and exactly one map
otherwise; the position axis never appears in a returned map and all returned
values are strictly positive.  The Nodup hypothesis reflects that `seq.sizes`
is a Python dict. -/
theorem c10_position_sizes_invariants (seq : MDASequence)
    (hN : (seq.sizes.map Prod.fst).Nodup) :
    position_sizes seq ≠ [] ∧
    (position_sizes seq).length =
      (if seq.stage_positions.isEmpty then 1
       else seq.stage_positions.length) ∧
    ∀ m ∈ position_sizes seq, ∀ kv ∈ m, kv.1 ≠ "p" ∧ 0 < kv.2 := by
  refine ⟨?_, position_sizes_length seq, position_sizes_entries seq hN⟩
  intro hnil
  have hl := position_sizes_length seq
  rw [hnil] at hl
  simp only [List.length_nil] at hl
  cases hpos : seq.stage_positions with
  | nil => rw [hpos] at hl; simp at hl
  | cons a t => rw [hpos] at hl; simp at hl

/-- Witness for C10 at a concrete flat sequence. -/
theorem c10_position_sizes_invariants_witness :
    position_sizes seqW10 ≠ [] ∧
    (position_sizes seqW10).length =
      (if seqW10.stage_positions.isEmpty then 1
       else seqW10.stage_positions.length) ∧
    ∀ m ∈ position_sizes seqW10, ∀ kv ∈ m, kv.1 ≠ "p" ∧ 0 < kv.2 :=
  c10_position_sizes_invariants seqW10 (by decide)

/-- C4 counterexample: in `seqC4` the position axis is present with value 1
(one stage position), yet it does not appear in the resolved output map; so an
axis present with value 1 does not always appear. -/
theorem c4_counterexample :
    ("p", 1) ∈ seqC4.sizes ∧ position_sizes seqC4 = [[("t", 2)]] := by
  constructor
  · decide
  · decide

/-- C4 (amended): an axis present with value 0 never appears in any resolved
output map (no output entry has value 0); and an axis other than the position
axis present with value 1 in the map being resolved (the root map for the flat
case and for positions without a sub-description; the position's own
sub-description map otherwise) always appears in the corresponding output map.
The position axis itself is always dropped. -/
theorem c4_axis_filtering_amended (seq : MDASequence) :
    (∀ m ∈ position_sizes seq, ∀ kv ∈ m, kv.2 ≠ 0) ∧
    (seq.stage_positions = [] →
      ∀ k, k ≠ "p" → (k, 1) ∈ seq.sizes →
        ∀ m ∈ position_sizes seq, (k, 1) ∈ m) ∧
    (∀ (i : Nat) (p : Position) (m : AxisSizes),
      seq.stage_positions[i]? = some p →
      (position_sizes seq)[i]? = some m →
      (p.sequence = none →
        ∀ k, k ≠ "p" → (k, 1) ∈ seq.sizes → (k, 1) ∈ m) ∧
      (∀ sub : SubSeq, p.sequence = some sub →
        ∀ k, k ≠ "p" → (k, 1) ∈ sub.sizes → (k, 1) ∈ m)) := by
  refine ⟨?_, ?_, ?_⟩
  · intro m hm kv hkv
    unfold position_sizes at hm
    by_cases hpos : seq.stage_positions.isEmpty
    · rw [if_pos hpos] at hm
      rcases List.mem_singleton.mp hm with rfl
      exact bne_iff_ne.mp (List.mem_filter.mp hkv).2
    · rw [if_neg hpos] at hm
      rcases List.mem_map.mp hm with ⟨p, _, rfl⟩
      exact positionSizesFor_values hkv
  · intro hpos k hk hmem m hm
    unfold position_sizes at hm
    rw [if_pos (by simp [hpos])] at hm
    rcases List.mem_singleton.mp hm with rfl
    exact List.mem_filter.mpr ⟨mem_eraseP_of_key_ne hk hmem, by simp⟩
  · intro i p m hp hm
    have hne : ¬ seq.stage_positions.isEmpty = true := by
      cases hq : seq.stage_positions with
      | nil => rw [hq] at hp; cases hp
      | cons a t => simp [hq]
    unfold position_sizes at hm
    rw [if_neg hne, List.getElem?_map, hp] at hm
    simp only [Option.map_some', Option.some.injEq] at hm
    constructor
    · intro hseq k hk hmem
      rw [← hm]
      exact positionSizesFor_plain hseq one_ne_zero hk
        (mem_eraseP_of_key_ne hk hmem)
    · intro sub hseq k hk hmem
      rw [← hm]
      exact positionSizesFor_sub hseq hk hmem

/-- Witness for C4 at a concrete flat sequence with a singleton axis. -/
theorem c4_axis_filtering_amended_witness :
    ("t", 1) ∈ (position_sizes seqW4).headD [] :=
  (c4_axis_filtering_amended seqW4).2.1 rfl "t" (by decide) (by decide)
    ((position_sizes seqW4).headD []) (by decide)

/-- C5: the source of `jagged_sizes` never reads its `compressed` parameter,
contradicting its own docstring: at the docstring's example input,
`compressed=True` returns the same un-hoisted result as `compressed=False`
instead of the documented result with the common axes t and z hoisted into the
root map. -/
theorem c5_compressed_ignored :
    jagged_sizes exDoc true = jagged_sizes exDoc false ∧
    jagged_sizes exDoc true =
      [("p", SizeVal.sub [[("t", 3), ("c", 2), ("z", 4)],
                          [("t", 3), ("g", 2), ("c", 1), ("z", 4)]])] ∧
    jagged_sizes exDoc true ≠
      [("t", SizeVal.n 3), ("z", SizeVal.n 4),
       ("p", SizeVal.sub [[("c", 2)], [("g", 2), ("c", 1)]])] := by
  refine ⟨rfl, by decide, by decide⟩

/-! ## Claims about the writer -/

/-- C3: for every sequence that uses more than three non-spatial axes, or uses
any axis outside the supported set (time, channel, z), `prepare_sequence`
raises synchronously and performs no storage mutation: no group metadata is
written and no array is created. -/
theorem c3_prepare_sequence_rejects (seq : MDASequence) (meta : SummaryMeta)
    (h : 3 < seq.used_axes.length ∨ ∃ a ∈ seq.used_axes, a ∉ supportedAxes) :
    (∃ msg, (prepare_sequence seq meta).1 = Except.error msg) ∧
    (prepare_sequence seq meta).2 = [] := by
  unfold prepare_sequence
  by_cases h1 : 3 < seq.used_axes.length
  · rw [if_pos h1]
    exact ⟨⟨_, rfl⟩, rfl⟩
  · rw [if_neg h1]
    have h2 : (seq.used_axes.any fun x => !(supportedAxes.contains x)) = true := by
      rcases h with hlen | ⟨a, ha, hout⟩
      · exact absurd hlen h1
      · refine List.any_eq_true.mpr ⟨a, ha, ?_⟩
        simp only [Bool.not_eq_true', ← Bool.not_eq_true]
        intro hc
        exact hout (by simpa using hc)
    rw [if_pos h2]
    exact ⟨⟨_, rfl⟩, rfl⟩

/-- Witness for C3 at a sequence using the unsupported grid axis. -/
theorem c3_prepare_sequence_rejects_witness :
    (∃ msg, (prepare_sequence seqW3 metaW).1 = Except.error msg) ∧
    (prepare_sequence seqW3 metaW).2 = [] :=
  c3_prepare_sequence_rejects seqW3 metaW (Or.inr ⟨"g", by decide, by decide⟩)

/-- C7: evidence that `reset` does not treat undrained pending writes as a
fatal error: at a state holding an open store and one pending write future, it
returns successfully and silently clears the pending list (the claim and the
specification require a raised or asserted error instead). -/
theorem c7_reset_silently_clears :
    reset ⟨some 1, [7], [(0, 0)]⟩ emptySeq = Except.ok ⟨none, [], []⟩ ∧
    ([7] : List Nat) ≠ [] := by
  exact ⟨rfl, by decide⟩

/-- C9: for every sequence whose time plan defines a sampling interval, the
derived time-axis unit is a (scale, "s") pair with strictly positive scale:
the interval's seconds value when non-zero, else the minimal non-zero
placeholder 1e-6. -/
theorem c9_time_unit_positive (seq : MDASequence) (tp : TimePlan) (secs : Nat)
    (h1 : seq.time_plan = some tp) (h2 : tp.interval = some secs) :
    ∃ scale : ℚ, _get_unit "t" seq = some (scale, "s") ∧ 0 < scale ∧
      scale = (if secs ≠ 0 then (secs : ℚ) else (1 : ℚ) / 1000000) := by
  refine ⟨if secs ≠ 0 then (secs : ℚ) else (1 : ℚ) / 1000000, ?_, ?_, rfl⟩
  · simp only [_get_unit, h1, h2]
    by_cases hz : secs = 0
    · simp [hz]
    · simp [hz]
  · by_cases hz : secs = 0
    · simp only [hz, ne_eq, not_true_eq_false, if_false]
      norm_num
    · simp only [ne_eq, hz, not_false_eq_true, if_true]
      exact_mod_cast Nat.pos_of_ne_zero hz

/-- Witness for C9 at a sequence whose interval reads as zero seconds. -/
theorem c9_time_unit_positive_witness :
    ∃ scale : ℚ, _get_unit "t" seqW9 = some (scale, "s") ∧ 0 < scale ∧
      scale = (if (0 : Nat) ≠ 0 then ((0 : Nat) : ℚ) else (1 : ℚ) / 1000000) :=
  c9_time_unit_positive seqW9 ⟨some 0⟩ 0 rfl rfl

/-! ## Claims about storage locations and group metadata -/

/-- C6 counterexample: a URL-style destination containing a scheme separator
is not used verbatim by the writer: the `group_path` setter routes it through
the local-filesystem branch, producing a file:// kvstore below the resolved
path instead of the original URL. -/
theorem c6_counterexample :
    containsSchemeSep "s3://bucket/data" = true ∧
    (set_group_path "/cwd" (some "s3://bucket/data")).1 =
      "file:///cwd/s3://bucket/data/0" ∧
    (set_group_path "/cwd" (some "s3://bucket/data")).1 ≠
      "s3://bucket/data" := by
  refine ⟨by decide, by decide, by decide⟩

/-- C6 (amended): for the writer, no destination (or a memory-scheme string)
selects the ephemeral in-memory location, and every other destination string —
even one containing a scheme separator — is resolved to an absolute local
filesystem path with the array data addressed one path segment ("0") below the
logical group path.  Verbatim scheme-separator pass-through happens only in
the separate `_path_kvstore` helper used by `create_zarr3`. -/
theorem c6_location_resolution_amended (cwd s : String) :
    set_group_path cwd none = ("memory://", none) ∧
    (strStartsWith (strToLower s) "memory:" = true →
      set_group_path cwd (some s) = ("memory://", none)) ∧
    (strStartsWith (strToLower s) "memory:" = false →
      set_group_path cwd (some s) =
        ("file://" ++ resolvePath cwd s ++ "/" ++ "0",
         some (resolvePath cwd s))) ∧
    (containsSchemeSep s = true → _path_kvstore cwd s = KvLocation.url s) ∧
    (containsSchemeSep s = false →
      _path_kvstore cwd s = KvLocation.fileDriver (resolvePath cwd s)) := by
  refine ⟨rfl, ?_, ?_, ?_, ?_⟩
  · intro h
    simp [set_group_path, h]
  · intro h
    simp [set_group_path, h]
  · intro h
    simp [_path_kvstore, h]
  · intro h
    simp [_path_kvstore, h]

/-- Witness for C6 at a concrete working directory and destination. -/
theorem c6_location_resolution_amended_witness :
    set_group_path "/cwd" none = ("memory://", none) ∧
    _path_kvstore "/cwd" "s3://b" = KvLocation.url "s3://b" :=
  ⟨(c6_location_resolution_amended "/cwd" "s3://b").1,
   (c6_location_resolution_amended "/cwd" "s3://b").2.2.2.1 (by decide)⟩

/-- C8: for every finalized dimension list and array sub-path, the produced
group descriptor has zarr_format 3, node_type "group", and
attributes.ome.multiscales is a single-element list whose element holds one
name/type/unit axes entry per dimension in dimension order and a single
dataset entry whose path is the array's relative path and whose
coordinateTransformations scale array has exactly one factor per axis, aligned
index-for-index with the axes. -/
theorem c8_group_meta_shape (ap : String) (dims : List _Dim) :
    jget (_group_meta ap dims) "zarr_format" = some (Json.num 3) ∧
    jget (_group_meta ap dims) "node_type" = some (Json.str "group") ∧
    ∃ scale0 ds ct : Json,
      (((jget (_group_meta ap dims) "attributes").bind
          (fun j => jget j "ome")).bind
            (fun j => jget j "multiscales")) = some (Json.arr [scale0]) ∧
      jget scale0 "axes" = some (Json.arr (dims.map _ome_axis_json)) ∧
      (∀ d : _Dim, _ome_axis_json d =
        Json.obj [("name", Json.str d.label),
                  ("type", Json.str d.ome_dim_type),
                  ("unit", Json.str d.ome_unit)]) ∧
      jget scale0 "datasets" = some (Json.arr [ds]) ∧
      jget ds "path" = some (Json.str ap) ∧
      jget ds "coordinateTransformations" = some (Json.arr [ct]) ∧
      jget ct "scale" =
        some (Json.arr ((dims.map _Dim.ome_scale).map Json.num)) ∧
      (dims.map _ome_axis_json).length = dims.length ∧
      (dims.map _Dim.ome_scale).length = dims.length := by
  refine ⟨rfl, rfl, ?_⟩
  refine ⟨_, _, _, rfl, rfl, fun d => rfl, rfl, rfl, rfl, rfl,
    List.length_map _ _, List.length_map _ _⟩

/-! ## Dimension builder lemmas -/

theorem build_main_labels (chunks : List (String × Int)) (seq : MDASequence)
    (hN : (seq.sizes.map Prod.fst).Nodup) :
    (_build_main_dims chunks seq).map _Dim.label = nonzeroKeys seq := by
  have key : ∀ l : AxisSizes, (∀ kv ∈ l, dget seq.sizes kv.1 = kv.2) →
      (l.filterMap (_build_entry chunks seq)).map _Dim.label =
        (l.filter (fun kv => kv.2 != 0)).map Prod.fst := by
    intro l
    induction l with
    | nil => intro _; rfl
    | cons a t ih =>
      intro h
      have ha : dget seq.sizes a.1 = a.2 := h a (List.mem_cons_self a t)
      rw [List.filterMap_cons, List.filter_cons]
      by_cases hz : a.2 = 0
      · have he : _build_entry chunks seq a = none := by
          simp [_build_entry, ha, hz]
        have hc : (a.2 != 0) = false := by simp [hz]
        rw [he, hc]
        simp only [Bool.false_eq_true, if_false]
        exact ih (fun kv hkv => h kv (List.mem_cons_of_mem a hkv))
      · have he : _build_entry chunks seq a =
            some { label := a.1, size := dget seq.sizes a.1,
                   unit := _get_unit a.1 seq,
                   chunk_size := some (chunksGet chunks a.1 1) } := by
          simp [_build_entry, ha, hz]
        have hc : (a.2 != 0) = true := by simp [hz]
        rw [he, hc]
        simp only [if_true, List.map_cons]
        rw [ih (fun kv hkv => h kv (List.mem_cons_of_mem a hkv))]
  exact key seq.sizes (fun kv hkv => dget_of_mem hN hkv)

/-- C2 counterexample: `seqC2` declares z before t (a custom axis order); it
passes `prepare_sequence` validation, yet the dimension list built for it has
`ome_dim_type` sequence space, time, space, space, which is not non-decreasing
under the ranking time 0, channel 1, other 2, space 3. -/
theorem c2_counterexample :
    (prepare_sequence seqC2 metaW).1 = Except.ok () ∧
    _build_dims [] seqC2 metaW =
      some [⟨"z", 2, none, some 1⟩, ⟨"t", 3, none, some 1⟩,
            ⟨"y", 4, some (1, "um"), some (-1)⟩,
            ⟨"x", 5, some (1, "um"), some (-1)⟩] ∧
    ¬ List.Pairwise
        (fun a b => dimTypeRank a.ome_dim_type ≤ dimTypeRank b.ome_dim_type)
        [(⟨"z", 2, none, some 1⟩ : _Dim), ⟨"t", 3, none, some 1⟩,
         ⟨"y", 4, some (1, "um"), some (-1)⟩,
         ⟨"x", 5, some (1, "um"), some (-1)⟩] := by
  refine ⟨rfl, by decide, ?_⟩
  intro h
  have := (List.pairwise_cons.mp h).1 ⟨"t", 3, none, some 1⟩ (by simp)
  exact absurd this (by decide)

/-- C2 (amended): for every schema the builder accepts, the y and x
descriptors are always the last two entries, appended regardless of whether y
or x appear in the input size mapping; and whenever the non-zero axes of the
input size mapping are declared in the canonical order t, then c, then z (as
with useq's default axis order), the `ome_dim_type` sequence of the produced
dimension list is non-decreasing under the ranking time 0, channel 1, other 2,
space 3.  The builder itself does not reorder axes, so a sequence declaring z
before t violates the unconditional form of the ordering invariant. -/
theorem c2_dim_order_amended (chunks : List (String × Int))
    (seq : MDASequence) (meta : SummaryMeta) (dims : List _Dim)
    (hN : (seq.sizes.map Prod.fst).Nodup)
    (hb : _build_dims chunks seq meta = some dims) :
    (List.Sublist (nonzeroKeys seq) ["t", "c", "z"] →
      List.Pairwise
        (fun a b => dimTypeRank a.ome_dim_type ≤ dimTypeRank b.ome_dim_type)
        dims) ∧
    ∃ front ydim xdim, dims = front ++ [ydim, xdim] ∧
      ydim.label = "y" ∧ xdim.label = "x" := by
  unfold _build_dims at hb
  cases him : meta.image_infos with
  | nil => rw [him] at hb; cases hb
  | cons img rest =>
    rw [him] at hb
    simp only [Option.some.injEq] at hb
    subst hb
    constructor
    · intro hs
      have hlab := build_main_labels chunks seq hN
      rw [List.pairwise_append]
      refine ⟨?_, ?_, ?_⟩
      · have h1 : List.Pairwise (fun a b => labelRank a ≤ labelRank b)
            ((_build_main_dims chunks seq).map _Dim.label) := by
          rw [hlab]
          exact List.Pairwise.sublist hs (by decide)
        have h2 := (List.pairwise_map).mp h1
        exact List.Pairwise.imp (fun hab => hab) h2
      · refine List.pairwise_cons.mpr ⟨?_, by simp⟩
        intro b hbmem
        rcases List.mem_singleton.mp hbmem with rfl
        exact Nat.le_refl 3
      · intro a ha b hbmem
        have hal : a.label ∈ nonzeroKeys seq := by
          rw [← hlab]
          exact List.mem_map_of_mem _Dim.label ha
        have hsub := hs.subset hal
        show labelRank a.label ≤ labelRank b.label
        have hb3 : labelRank b.label = 3 := by
          rcases List.mem_cons.mp hbmem with rfl | hbmem'
          · rfl
          · rcases List.mem_singleton.mp hbmem' with rfl
            rfl
        rw [hb3]
        simp only [List.mem_cons, List.mem_singleton,
          List.not_mem_nil, or_false] at hsub
        rcases hsub with h | h | h <;> rw [h] <;> decide
    · exact ⟨_build_main_dims chunks seq, _, _, rfl, rfl, rfl⟩

/-- Witness for C2 at a canonically ordered sequence. -/
theorem c2_dim_order_amended_witness :
    (List.Sublist (nonzeroKeys seqW2) ["t", "c", "z"] →
      List.Pairwise
        (fun a b => dimTypeRank a.ome_dim_type ≤ dimTypeRank b.ome_dim_type)
        [(⟨"t", 2, none, some 1⟩ : _Dim), ⟨"c", 3, none, some 1⟩,
         ⟨"y", 4, some (1, "um"), some (-1)⟩,
         ⟨"x", 5, some (1, "um"), some (-1)⟩]) ∧
    ∃ front ydim xdim,
      [(⟨"t", 2, none, some 1⟩ : _Dim), ⟨"c", 3, none, some 1⟩,
       ⟨"y", 4, some (1, "um"), some (-1)⟩,
       ⟨"x", 5, some (1, "um"), some (-1)⟩] = front ++ [ydim, xdim] ∧
      ydim.label = "y" ∧ xdim.label = "x" :=
  c2_dim_order_amended [] seqW2 metaW _ (by decide) (by decide)
